import Mathlib

/-!
Verification of the SABER covariance block-chain engine against its design
specification.  Shallow embedding: field sets are flattened lists of rational
values, blocks are functions on field sets, exceptions are explicit sum types.
Definitions are translated from the C++ (ErrorCovariance.h,
SaberCentralBlockBase.cc, SpectralCorrelation.cc) and Fortran
(gsi_covariance_mod) sources.
-/

namespace Saber

/-- A field set, flattened to a list of values (atlas::FieldSet contents).
Rational numbers model the exact arithmetic of the operations involved. -/
abbrev Fset := List ℚ

/-- Pointwise scaling of a field set by a scalar (fset *= scalar). -/
def fsetScale (a : ℚ) (f : Fset) : Fset := f.map (fun x => a * x)

/-- Pointwise multiplication by a weight field set (fset *= weightFieldSet). -/
def fsetMulField (w f : Fset) : Fset := List.zipWith (fun a b => a * b) w f

/-- Pointwise sum of two field sets (dxo += fset). -/
def fsetAdd (a b : Fset) : Fset := List.zipWith (fun x y => x + y) a b

/-- A zero field set of the same shape as the argument (dxo.zero()). -/
def fsetZero (f : Fset) : Fset := f.map (fun _ => 0)

/-- Chain of outer blocks shared by all components of a hybrid covariance
(SaberOuterBlockChain): forward application and adjoint application. -/
structure OuterBlockChain where
  applyOuterBlocks : Fset → Fset
  applyOuterBlocksAD : Fset → Fset

/-- One hybrid B component: the block chain multiply
(hybridBlockChain_[jj]->multiply), the stored scalar weight square root
(hybridScalarWeightSqrt_[jj]) and the stored per-field weight square root
(hybridFieldWeightSqrt_[jj]; the empty list models the empty fieldset).
The C++ keeps these in three parallel vectors indexed by jj; they are fused
here into one record per component. -/
structure HybridComponent where
  blockChain : Fset → Fset
  scalarWeightSqrt : ℚ
  fieldWeightSqrt : Fset

/-- Weight application as written in ErrorCovariance::doMultiply: the scalar
multiplication is skipped when the stored square root equals 1.0, and the
field multiplication is skipped when the weight fieldset is empty. -/
def applyWeightSqrt (scalarWeightSqrt : ℚ) (fieldWeightSqrt : Fset) (fset : Fset) : Fset :=
  let fset1 := if scalarWeightSqrt ≠ 1 then fsetScale scalarWeightSqrt fset else fset
  if fieldWeightSqrt ≠ [] then fsetMulField fieldWeightSqrt fset1 else fset1

/-- Body of the component loop of ErrorCovariance::doMultiply: weight, chain
multiply, weight again. -/
def componentContribution (c : HybridComponent) (dxi : Fset) : Fset :=
  applyWeightSqrt c.scalarWeightSqrt c.fieldWeightSqrt
    (c.blockChain (applyWeightSqrt c.scalarWeightSqrt c.fieldWeightSqrt dxi))

/-- The ErrorCovariance state relevant to doMultiply: the optional shared
outer block chain and the list of hybrid components. -/
structure ErrorCovariance where
  outerBlockChain : Option OuterBlockChain
  hybridComponents : List HybridComponent

/-- Conditional forward application (if (outerBlockChain_) ... applyOuterBlocks). -/
def applyOuterOpt : Option OuterBlockChain → Fset → Fset
  | some oc, f => oc.applyOuterBlocks f
  | none, f => f

/-- Conditional adjoint application (if (outerBlockChain_) ... applyOuterBlocksAD). -/
def applyOuterOptAD : Option OuterBlockChain → Fset → Fset
  | some oc, f => oc.applyOuterBlocksAD f
  | none, f => f

/-- ErrorCovariance::doMultiply: copy the input, apply the shared outer chain
adjoint once, zero-initialise the accumulator, add each weighted component
contribution, then apply the shared outer chain forward once. -/
def doMultiply (B : ErrorCovariance) (dxiInc : Fset) : Fset :=
  let dxi := applyOuterOptAD B.outerBlockChain dxiInc
  applyOuterOpt B.outerBlockChain
    (B.hybridComponents.foldl
      (fun dxo c => fsetAdd dxo (componentContribution c dxi))
      (fsetZero dxi))

/-- The ErrorCovariance constructor branch on the central block name
(lines 176 and 275-304 of ErrorCovariance.h): the reserved name Hybrid builds
the component list and possibly a shared outer chain; any other name builds a
degenerate one-component hybrid with scalar weight square root 1.0, empty
field weight, and no shared outer chain. -/
def mkErrorCovariance (centralBlockName : String) (sharedOuter : Option OuterBlockChain)
    (hybridComps : List HybridComponent) (chainMultiply : Fset → Fset) : ErrorCovariance :=
  if centralBlockName = "Hybrid" then
    { outerBlockChain := sharedOuter, hybridComponents := hybridComps }
  else
    { outerBlockChain := none
      hybridComponents := [{ blockChain := chainMultiply, scalarWeightSqrt := 1,
                             fieldWeightSqrt := [] }] }

/-- Weighting as the specification words it: always scale by the stored scalar
square-root weight, and additionally by the per-field weight when non-empty. -/
def specWeightScale (scalarWeightSqrt : ℚ) (fieldWeightSqrt : Fset) (fset : Fset) : Fset :=
  if fieldWeightSqrt ≠ [] then fsetMulField fieldWeightSqrt (fsetScale scalarWeightSqrt fset)
  else fsetScale scalarWeightSqrt fset

lemma fsetScale_one (f : Fset) : fsetScale 1 f = f := by
  simp [fsetScale]

lemma applyWeightSqrt_eq_spec (s : ℚ) (w : Fset) (f : Fset) :
    applyWeightSqrt s w f = specWeightScale s w f := by
  unfold applyWeightSqrt specWeightScale
  by_cases hs : s = 1
  · subst hs
    simp [fsetScale_one]
  · simp [hs]

lemma foldl_hcongr {α β : Type} (f g : α → β → α) (h : ∀ a b, f a b = g a b) :
    ∀ (l : List β) (a : α), l.foldl f a = l.foldl g a := by
  intro l
  induction l with
  | nil => intro a; rfl
  | cons x xs ih => intro a; simp only [List.foldl_cons, h, ih]

lemma fsetAdd_zero_left (a b : Fset) (h : b.length ≤ a.length) :
    fsetAdd (fsetZero a) b = b := by
  induction b generalizing a with
  | nil => simp [fsetAdd]
  | cons x xs ih =>
    cases a with
    | nil => simp at h
    | cons y ys =>
      simp only [fsetZero, List.map_cons, fsetAdd, List.zipWith_cons_cons, zero_add]
      have := ih ys (by simpa using h)
      simpa [fsetAdd, fsetZero] using this

/-- C1: for a hybrid covariance with a shared outer block chain, doMultiply
copies the input, applies the shared outer chain adjoint exactly once, then
for each component scales by the stored scalar square-root weight (and the
per-field weight when non-empty), applies the component chain multiply, scales
again by the same weights, accumulates the component results by summation, and
finally applies the shared outer chain forward exactly once to the sum. -/
theorem doMultiply_hybrid_shared_outer (oc : OuterBlockChain) (comps : List HybridComponent)
    (dxi : Fset) :
    doMultiply { outerBlockChain := some oc, hybridComponents := comps } dxi =
      oc.applyOuterBlocks
        (comps.foldl
          (fun acc c =>
            fsetAdd acc
              (specWeightScale c.scalarWeightSqrt c.fieldWeightSqrt
                (c.blockChain
                  (specWeightScale c.scalarWeightSqrt c.fieldWeightSqrt
                    (oc.applyOuterBlocksAD dxi)))))
          (fsetZero (oc.applyOuterBlocksAD dxi))) := by
  unfold doMultiply componentContribution applyOuterOpt applyOuterOptAD
  rw [foldl_hcongr]
  intro a b
  rw [applyWeightSqrt_eq_spec, applyWeightSqrt_eq_spec]

/-- C5: with a central block name other than Hybrid, the constructor builds a
degenerate one-component hybrid whose scalar weight square root is exactly 1.0
and whose per-field weight field set is empty, and doMultiply on it equals the
single component chain multiply applied directly, exactly (no weight
multiplication is performed: both weight guards are skipped). -/
theorem errorCovariance_nonHybrid_degenerate (centralBlockName : String)
    (hname : centralBlockName ≠ "Hybrid") (sharedOuter : Option OuterBlockChain)
    (hybridComps : List HybridComponent) (chainMultiply : Fset → Fset) (dxi : Fset)
    (hlen : (chainMultiply dxi).length = dxi.length) :
    (mkErrorCovariance centralBlockName sharedOuter hybridComps chainMultiply).hybridComponents.map
        (fun c => (c.scalarWeightSqrt, c.fieldWeightSqrt)) = [((1 : ℚ), ([] : Fset))] ∧
    doMultiply (mkErrorCovariance centralBlockName sharedOuter hybridComps chainMultiply) dxi =
      chainMultiply dxi := by
  unfold mkErrorCovariance
  rw [if_neg hname]
  refine ⟨rfl, ?_⟩
  unfold doMultiply componentContribution applyOuterOpt applyOuterOptAD applyWeightSqrt
  simp only [List.foldl_cons, List.foldl_nil]
  norm_num
  exact fsetAdd_zero_left dxi (chainMultiply dxi) (le_of_eq hlen)

/-- Concrete chain used by witnesses: doubles every value. -/
def exampleChain : Fset → Fset := fun f => f.map (fun x => 2 * x)

/-- Witness for C5 at a concrete non-Hybrid configuration. -/
theorem errorCovariance_nonHybrid_degenerate_witness :
    ("ID" ≠ "Hybrid") ∧ (exampleChain [1, 2]).length = ([1, 2] : Fset).length ∧
    ((mkErrorCovariance "ID" none [] exampleChain).hybridComponents.map
        (fun c => (c.scalarWeightSqrt, c.fieldWeightSqrt)) = [((1 : ℚ), ([] : Fset))] ∧
      doMultiply (mkErrorCovariance "ID" none [] exampleChain) [1, 2] = exampleChain [1, 2]) :=
  ⟨by decide, by decide,
    errorCovariance_nonHybrid_degenerate "ID" (by decide) none [] exampleChain [1, 2] (by decide)⟩

lemma fsetScale_scale (a b : ℚ) (f : Fset) :
    fsetScale a (fsetScale b f) = fsetScale (a * b) f := by
  simp [fsetScale, Function.comp, mul_assoc]

lemma fsetMulField_scale_comm (w : Fset) (a : ℚ) (f : Fset) :
    fsetMulField w (fsetScale a f) = fsetScale a (fsetMulField w f) := by
  induction w generalizing f with
  | nil => simp [fsetMulField, fsetScale]
  | cons x xs ih =>
    cases f with
    | nil => simp [fsetMulField, fsetScale]
    | cons y ys =>
      simp only [fsetMulField, fsetScale, List.map_cons, List.zipWith_cons_cons]
      refine congrArg₂ _ (by ring) ?_
      simpa [fsetMulField, fsetScale] using ih ys

/-- The conditional per-field weighting step in isolation. -/
def condFieldMul (w f : Fset) : Fset := if w ≠ [] then fsetMulField w f else f

lemma applyWeightSqrt_eq_scale_condMul (s : ℚ) (w f : Fset) :
    applyWeightSqrt s w f = condFieldMul w (fsetScale s f) := by
  unfold applyWeightSqrt condFieldMul
  by_cases hs : s = 1
  · subst hs; simp [fsetScale_one]
  · simp [hs]

lemma condFieldMul_scale_comm (w : Fset) (a : ℚ) (f : Fset) :
    condFieldMul w (fsetScale a f) = fsetScale a (condFieldMul w f) := by
  unfold condFieldMul
  by_cases hw : w = []
  · simp [hw]
  · simp only [hw, ne_eq, not_false_iff, if_true, fsetMulField_scale_comm]

lemma componentContribution_scale (chain : Fset → Fset)
    (hlin : ∀ (a : ℚ) (f : Fset), chain (fsetScale a f) = fsetScale a (chain f))
    (s : ℚ) (w f : Fset) :
    componentContribution { blockChain := chain, scalarWeightSqrt := s,
                            fieldWeightSqrt := w } f =
      fsetScale (s * s) (condFieldMul w (chain (condFieldMul w f))) := by
  unfold componentContribution
  simp only [applyWeightSqrt_eq_scale_condMul]
  rw [condFieldMul_scale_comm w s f, hlin s, fsetScale_scale,
      condFieldMul_scale_comm w (s * s) (chain (condFieldMul w f))]

/-- C6: for a hybrid component whose chain multiply is linear (homogeneous),
replacing the stored scalar square-root weight s (with s*s equal to the
configured weight w: the constructor stores std::sqrt of the configured
weight, modelled here by this equation since exact square roots do not exist
in ℚ) by a square root of k*w multiplies the component contribution to the
doMultiply output by exactly k: the square root is applied once before and
once after the component chain multiply. -/
theorem hybridComponent_weight_scaling (chain : Fset → Fset)
    (hlin : ∀ (a : ℚ) (f : Fset), chain (fsetScale a f) = fsetScale a (chain f))
    (w k s s2 : ℚ) (fieldW : Fset) (f : Fset)
    (hs : s * s = w) (hs2 : s2 * s2 = k * w) :
    componentContribution { blockChain := chain, scalarWeightSqrt := s2,
                            fieldWeightSqrt := fieldW } f =
      fsetScale k
        (componentContribution { blockChain := chain, scalarWeightSqrt := s,
                                 fieldWeightSqrt := fieldW } f) := by
  rw [componentContribution_scale chain hlin s fieldW f,
      componentContribution_scale chain hlin s2 fieldW f]
  rw [fsetScale_scale, hs, hs2]

/-- Witness for C6: identity chain, weight 1 scaled by k = 4 (stored square
roots 1 and 2), on a concrete one-entry field set. -/
theorem hybridComponent_weight_scaling_witness :
    (∀ (a : ℚ) (f : Fset), (fun g => g) (fsetScale a f) = fsetScale a ((fun g => g) f)) ∧
    ((1 : ℚ) * 1 = 1 ∧ (2 : ℚ) * 2 = 4 * 1) ∧
    componentContribution { blockChain := fun g => g, scalarWeightSqrt := 2,
                            fieldWeightSqrt := [] } [1] =
      fsetScale 4
        (componentContribution { blockChain := fun g => g, scalarWeightSqrt := 1,
                                 fieldWeightSqrt := [] } [1]) :=
  ⟨fun _ _ => rfl, ⟨by norm_num, by norm_num⟩,
    hybridComponent_weight_scaling (fun g => g) (fun _ _ => rfl) 1 4 1 2 [] [1]
      (by norm_num) (by norm_num)⟩

/-- Outcome of SaberCentralBlockBase::adjointTest: pass, or the thrown
eckit::Exception carrying its message. -/
inductive AdjointTestResult
  | passed
  | failure (msg : String)
deriving DecidableEq

/-- util::dotProductFieldSets restricted to one MPI rank and flattened fields:
the discrete L2 inner product of the two value lists.  The MPI allreduce sum
across ranks is outside the shallow embedding; the whole (globally reduced)
dot product is modelled by this single sum. -/
def dotProductFieldSets (fset1 fset2 : Fset) : ℚ :=
  (List.zipWith (fun a b => a * b) fset1 fset2).sum

/-- SaberCentralBlockBase::adjointTest.  The two field sets drawn by
util::createRandomFieldSet are parameters (randomness is external to the
embedding); the body saves copies of both, applies the forward multiply (not
the adjoint) to both, computes the two dot products, and passes exactly when
the relative difference is strictly below the tolerance, throwing a fatal
exception otherwise.  Division is the total division of ℚ. -/
def adjointTest (multiply : Fset → Fset) (fset1 fset2 : Fset) (adjointTolerance : ℚ)
    (blockName : String) : AdjointTestResult :=
  let fset1Save := fset1
  let fset2Save := fset2
  let fset1m := multiply fset1
  let fset2m := multiply fset2
  let dp1 := dotProductFieldSets fset1m fset2Save
  let dp2 := dotProductFieldSets fset2m fset1Save
  if |dp1 - dp2| / |(1 / 2 : ℚ) * (dp1 + dp2)| < adjointTolerance then
    AdjointTestResult.passed
  else
    AdjointTestResult.failure ("Adjoint test failure for block " ++ blockName)

/-- C2: adjointTest applies the forward multiply to both random field sets,
forms dp1 as the dot product of (A x) with y and dp2 as the dot product of
(A y) with x, passes exactly when the relative difference
abs(dp1 - dp2) / abs(0.5 * (dp1 + dp2)) is strictly below the configured
tolerance, and on any non-pass it is the thrown fatal exception (never a soft
warning). -/
theorem adjointTest_pass_iff (A : Fset → Fset) (x y : Fset) (tol : ℚ) (blockName : String) :
    (adjointTest A x y tol blockName = AdjointTestResult.passed ↔
      |dotProductFieldSets (A x) y - dotProductFieldSets (A y) x| /
          |(1 / 2 : ℚ) * (dotProductFieldSets (A x) y + dotProductFieldSets (A y) x)| < tol) ∧
    (adjointTest A x y tol blockName ≠ AdjointTestResult.passed →
      adjointTest A x y tol blockName =
        AdjointTestResult.failure ("Adjoint test failure for block " ++ blockName)) := by
  unfold adjointTest
  constructor
  · constructor
    · intro h
      by_contra hc
      simp only [if_neg hc] at h
      exact AdjointTestResult.noConfusion h
    · intro h
      simp only [if_pos h]
  · intro h
    by_cases hc :
        |dotProductFieldSets (A x) y - dotProductFieldSets (A y) x| /
            |(1 / 2 : ℚ) * (dotProductFieldSets (A x) y + dotProductFieldSets (A y) x)| < tol
    · exact absurd (by simp only [if_pos hc]) h
    · simp only [if_neg hc]

/-- Witness for C2 with the identity block on concrete field sets. -/
theorem adjointTest_pass_iff_witness :
    (adjointTest (fun f => f) [1] [2] 1 "ID" = AdjointTestResult.passed ↔
      |dotProductFieldSets ((fun f : Fset => f) [1]) [2] -
          dotProductFieldSets ((fun f : Fset => f) [2]) [1]| /
          |(1 / 2 : ℚ) * (dotProductFieldSets ((fun f : Fset => f) [1]) [2] +
            dotProductFieldSets ((fun f : Fset => f) [2]) [1])| < 1) ∧
    (adjointTest (fun f => f) [1] [2] 1 "ID" ≠ AdjointTestResult.passed →
      adjointTest (fun f => f) [1] [2] 1 "ID" =
        AdjointTestResult.failure ("Adjoint test failure for block " ++ "ID")) :=
  adjointTest_pass_iff (fun f => f) [1] [2] 1 "ID"

/-- One atlas::Field of a spectral field set: variable name and data view,
indexed first by the spectral coefficient index i and then by the level jl. -/
structure SCField where
  name : String
  data : List (List ℚ)
deriving DecidableEq, Inhabited

/-- State of the SpectralCorrelation central block used by multiply:
active variables, spectral truncation N, the zonal wavenumbers owned by this
partition, the stored vertical correlation views (per variable, indexed by
total wavenumber, row level, column level), and the first dimension of each
stored correlation field (vertCovView.shape(0), the number of spectral bins
allocated by read). -/
structure SpectralCorrelation where
  activeVars : List String
  truncation : Nat
  zonalWavenumbers : List Nat
  spectralVerticalCorrelations : String → Nat → Nat → Nat → ℚ
  vertCovShape0 : String → Nat

/-- The sequence of total wavenumbers visited by the loops of
SpectralCorrelation::multiply, one entry per spectral coefficient index i:
for each zonal wavenumber m1, for each total wavenumber n1 from m1 to N,
twice (real and imaginary components). -/
def spectralCoeffTotalWavenumbers (N : Nat) (zonalWavenumbers : List Nat) : List Nat :=
  zonalWavenumbers.flatMap (fun m1 => (List.range' m1 (N + 1 - m1)).flatMap (fun n1 => [n1, n1]))

/-- The inner convolution of SpectralCorrelation::multiply: the level column
col at one spectral coefficient with total wavenumber n1 is replaced by
col2 with col2[r] the sum over c of vertCov(n1, r, c) * col[c] / norm, where
norm = (2 * n1 + 1) * shape0. -/
def convolveCol (vertCov : Nat → Nat → Nat → ℚ) (shape0 : Nat) (n1 : Nat)
    (col : List ℚ) : List ℚ :=
  (List.range col.length).map (fun r =>
    ((List.range col.length).map (fun c =>
      vertCov n1 r c * col.getD c 0 / (((2 * n1 + 1) * shape0 : Nat) : ℚ))).sum)

/-- Application of the convolution to the successive spectral coefficient
columns, following the single running index i of the loops. -/
def convolveRows (vertCov : Nat → Nat → Nat → ℚ) (shape0 : Nat) :
    List Nat → List (List ℚ) → List (List ℚ)
  | [], data => data
  | _ :: _, [] => []
  | n1 :: ns, col :: rest => convolveCol vertCov shape0 n1 col :: convolveRows vertCov shape0 ns rest

/-- SpectralCorrelation::multiply: only the fields named in the active
variables are updated; each one has its spectral coefficient columns convolved
with the stored vertical correlations. -/
def SpectralCorrelation.multiply (B : SpectralCorrelation) (fieldSet : List SCField) :
    List SCField :=
  fieldSet.map (fun fld =>
    if fld.name ∈ B.activeVars then
      { fld with
        data := convolveRows (B.spectralVerticalCorrelations fld.name)
          (B.vertCovShape0 fld.name)
          (spectralCoeffTotalWavenumbers B.truncation B.zonalWavenumbers) fld.data }
    else fld)

/-- Exceptions thrown through eckit in the modelled code paths. -/
inductive EckitException
  | functionalityNotSupported (msg : String)
  | exception (msg : String)
  | userError (msg : String)
deriving DecidableEq

/-- SpectralCorrelation::randomize: logs an error directing the caller to the
ID central block with the square root of spectral correlation outer block, and
throws before touching the field set.  The result pairs the (unchanged) field
set buffer with the thrown exception. -/
def SpectralCorrelation.randomize (_B : SpectralCorrelation) (fieldSet : List SCField) :
    List SCField × Option EckitException :=
  (fieldSet,
   some (EckitException.functionalityNotSupported
     "use ID and square root of spectral correlation instead."))

lemma getD_map_lt {α β : Type} (f : α → β) (l : List α) (n : Nat) (d1 : α) (d2 : β)
    (h : n < l.length) : (l.map f).getD n d2 = f (l.getD n d1) := by
  induction l generalizing n with
  | nil => simp at h
  | cons x xs ih =>
    cases n with
    | zero => rfl
    | succ m =>
      simp only [List.map_cons, List.getD_cons_succ]
      exact ih m (by simpa using h)

lemma convolveRows_getD (vertCov : Nat → Nat → Nat → ℚ) (shape0 : Nat) (ns : List Nat)
    (data : List (List ℚ)) (p : Nat) (hlen : data.length = ns.length)
    (hp : p < data.length) :
    (convolveRows vertCov shape0 ns data).getD p [] =
      convolveCol vertCov shape0 (ns.getD p 0) (data.getD p []) := by
  induction ns generalizing data p with
  | nil =>
    have hd : data = [] := by simpa using hlen
    subst hd
    simp at hp
  | cons n1 ns ih =>
    cases data with
    | nil => simp at hp
    | cons col rest =>
      cases p with
      | zero => rfl
      | succ q =>
        simp only [convolveRows, List.getD_cons_succ]
        exact ih rest q (by simpa using hlen) (by simpa using hp)

lemma sum_map_div {α : Type} (l : List α) (f : α → ℚ) (d : ℚ) :
    (l.map (fun x => f x / d)).sum = (l.map f).sum / d := by
  induction l with
  | nil => simp
  | cons x xs ih => simp [ih, add_div]

lemma getD_range_lt (n r : Nat) (h : r < n) : (List.range n).getD r 0 = r := by
  rw [List.getD_eq_getElem _ _ (by simpa using h)]
  simp

lemma convolveCol_getD (vertCov : Nat → Nat → Nat → ℚ) (shape0 n1 : Nat) (col : List ℚ)
    (r : Nat) (hr : r < col.length) :
    (convolveCol vertCov shape0 n1 col).getD r 0 =
      ((List.range col.length).map (fun c => vertCov n1 r c * col.getD c 0)).sum /
        (((2 * n1 + 1) * shape0 : Nat) : ℚ) := by
  unfold convolveCol
  rw [getD_map_lt _ _ r 0 0 (by simpa using hr), getD_range_lt _ _ hr, sum_map_div]

lemma multiply_getD_active (B : SpectralCorrelation) (fieldSet : List SCField) (idx : Nat)
    (hidx : idx < fieldSet.length)
    (hactive : (fieldSet.getD idx default).name ∈ B.activeVars) :
    (B.multiply fieldSet).getD idx default =
      { fieldSet.getD idx default with
        data := convolveRows
          (B.spectralVerticalCorrelations (fieldSet.getD idx default).name)
          (B.vertCovShape0 (fieldSet.getD idx default).name)
          (spectralCoeffTotalWavenumbers B.truncation B.zonalWavenumbers)
          (fieldSet.getD idx default).data } := by
  unfold SpectralCorrelation.multiply
  rw [getD_map_lt _ _ idx default default hidx, if_pos hactive]

lemma multiply_entry_sum (B : SpectralCorrelation)
    (fieldSet : List SCField) (idx p r : Nat)
    (hidx : idx < fieldSet.length)
    (hactive : (fieldSet.getD idx default).name ∈ B.activeVars)
    (hlen : (fieldSet.getD idx default).data.length =
      (spectralCoeffTotalWavenumbers B.truncation B.zonalWavenumbers).length)
    (hp : p < (fieldSet.getD idx default).data.length)
    (hr : r < ((fieldSet.getD idx default).data.getD p []).length) :
    (((B.multiply fieldSet).getD idx default).data.getD p []).getD r 0 =
      ((List.range ((fieldSet.getD idx default).data.getD p []).length).map
        (fun c =>
          B.spectralVerticalCorrelations (fieldSet.getD idx default).name
              ((spectralCoeffTotalWavenumbers B.truncation B.zonalWavenumbers).getD p 0) r c *
            ((fieldSet.getD idx default).data.getD p []).getD c 0)).sum /
        (((2 * (spectralCoeffTotalWavenumbers B.truncation B.zonalWavenumbers).getD p 0 + 1) *
            B.vertCovShape0 (fieldSet.getD idx default).name : Nat) : ℚ) := by
  rw [multiply_getD_active B fieldSet idx hidx hactive]
  rw [convolveRows_getD _ _ _ _ p hlen hp]
  rw [convolveCol_getD _ _ _ _ r hr]

/-- C3: for every active variable, at every spectral coefficient index p (one
per zonal wavenumber m, total wavenumber n with m ≤ n ≤ truncation, and
real/imaginary component, in loop order), SpectralCorrelation::multiply
replaces the per-level column by its convolution with the level-by-level
correlation matrix stored for the total wavenumber n at p, normalised by
1 / ((2 n + 1) * shape0) where shape0 is the first dimension of the stored
correlation field (the number of stored correlation bins). -/
theorem spectralCorrelation_multiply_convolves (B : SpectralCorrelation)
    (fieldSet : List SCField) (idx p r : Nat)
    (hidx : idx < fieldSet.length)
    (hactive : (fieldSet.getD idx default).name ∈ B.activeVars)
    (hlen : (fieldSet.getD idx default).data.length =
      (spectralCoeffTotalWavenumbers B.truncation B.zonalWavenumbers).length)
    (hp : p < (fieldSet.getD idx default).data.length)
    (hr : r < ((fieldSet.getD idx default).data.getD p []).length) :
    (((B.multiply fieldSet).getD idx default).data.getD p []).getD r 0 =
      ((List.range ((fieldSet.getD idx default).data.getD p []).length).map
        (fun c =>
          B.spectralVerticalCorrelations (fieldSet.getD idx default).name
              ((spectralCoeffTotalWavenumbers B.truncation B.zonalWavenumbers).getD p 0) r c *
            ((fieldSet.getD idx default).data.getD p []).getD c 0)).sum /
        (((2 * (spectralCoeffTotalWavenumbers B.truncation B.zonalWavenumbers).getD p 0 + 1) *
            B.vertCovShape0 (fieldSet.getD idx default).name : Nat) : ℚ) :=
  multiply_entry_sum B fieldSet idx p r hidx hactive hlen hp hr

/-- Concrete block for the C3 witness: truncation 1, zonal wavenumbers 0 and 1,
all stored correlation entries 1, two stored bins. -/
def scWitnessBlock : SpectralCorrelation :=
  { activeVars := ["streamfunction"]
    truncation := 1
    zonalWavenumbers := [0, 1]
    spectralVerticalCorrelations := fun _ _ _ _ => 1
    vertCovShape0 := fun _ => 2 }

/-- Concrete single-level field set for the C3 witness: six spectral
coefficients, matching the six (m, n, img) triples of truncation 1. -/
def scWitnessFieldSet : List SCField :=
  [{ name := "streamfunction", data := [[1], [1], [1], [1], [1], [1]] }]

/-- Witness for C3 at the first coefficient (m = 0, n = 0, real part). -/
theorem spectralCorrelation_multiply_convolves_witness :
    (0 < scWitnessFieldSet.length ∧
      (scWitnessFieldSet.getD 0 default).name ∈ scWitnessBlock.activeVars ∧
      (scWitnessFieldSet.getD 0 default).data.length =
        (spectralCoeffTotalWavenumbers scWitnessBlock.truncation
          scWitnessBlock.zonalWavenumbers).length ∧
      0 < (scWitnessFieldSet.getD 0 default).data.length ∧
      0 < ((scWitnessFieldSet.getD 0 default).data.getD 0 []).length) ∧
    (((scWitnessBlock.multiply scWitnessFieldSet).getD 0 default).data.getD 0 []).getD 0 0 =
      ((List.range ((scWitnessFieldSet.getD 0 default).data.getD 0 []).length).map
        (fun c =>
          scWitnessBlock.spectralVerticalCorrelations (scWitnessFieldSet.getD 0 default).name
              ((spectralCoeffTotalWavenumbers scWitnessBlock.truncation
                scWitnessBlock.zonalWavenumbers).getD 0 0) 0 c *
            ((scWitnessFieldSet.getD 0 default).data.getD 0 []).getD c 0)).sum /
        (((2 * (spectralCoeffTotalWavenumbers scWitnessBlock.truncation
              scWitnessBlock.zonalWavenumbers).getD 0 0 + 1) *
            scWitnessBlock.vertCovShape0 (scWitnessFieldSet.getD 0 default).name : Nat) : ℚ) :=
  ⟨⟨by decide, by decide, by decide, by decide, by decide⟩,
    spectralCorrelation_multiply_convolves scWitnessBlock scWitnessFieldSet 0 0 0
      (by decide) (by decide) (by decide) (by decide) (by decide)⟩

/-- Concrete two-level block refuting C4: identity stored correlation matrix
at every total wavenumber, truncation 1, two stored bins. -/
def scIdentityBlock : SpectralCorrelation :=
  { activeVars := ["theta"]
    truncation := 1
    zonalWavenumbers := [0, 1]
    spectralVerticalCorrelations := fun _ _ r c => if r = c then 1 else 0
    vertCovShape0 := fun _ => 2 }

/-- Concrete two-level single-variable field set refuting C4. -/
def scIdentityFieldSet : List SCField :=
  [{ name := "theta", data := [[1, 0], [0, 0], [0, 0], [0, 0], [0, 0], [0, 0]] }]

/-- Counterexample to C4: with the identity matrix stored at every total
wavenumber, multiply is not a no-op; the first coefficient column [1, 0] is
scaled to [1/2, 0] by the 1 / ((2 n + 1) * shape0) normalisation. -/
theorem spectralCorrelation_identity_not_noop :
    scIdentityBlock.multiply scIdentityFieldSet ≠ scIdentityFieldSet := by
  intro h
  have h0 : (((scIdentityBlock.multiply scIdentityFieldSet).getD 0 default).data.getD 0 []).getD
      0 0 = ((scIdentityFieldSet.getD 0 default).data.getD 0 []).getD 0 0 := by
    rw [h]
  rw [multiply_entry_sum scIdentityBlock scIdentityFieldSet 0 0 0 (by decide) (by decide)
    (by decide) (by decide) (by decide)] at h0
  rw [show spectralCoeffTotalWavenumbers scIdentityBlock.truncation
      scIdentityBlock.zonalWavenumbers = [0, 0, 1, 1, 1, 1] by decide] at h0
  simp only [scIdentityBlock, scIdentityFieldSet] at h0
  norm_num [List.range_succ] at h0

/-- C4 amended: for a two-level single-variable configuration whose stored
correlation matrix is the identity at every total wavenumber, multiply divides
each spectral coefficient column (total wavenumber n) entrywise by
(2 n + 1) * shape0 instead of leaving it unchanged, shape0 being the first
dimension of the stored correlation field. -/
theorem spectralCorrelation_identity_scales (B : SpectralCorrelation)
    (fieldSet : List SCField) (idx p r : Nat)
    (hidx : idx < fieldSet.length)
    (hactive : (fieldSet.getD idx default).name ∈ B.activeVars)
    (hlen : (fieldSet.getD idx default).data.length =
      (spectralCoeffTotalWavenumbers B.truncation B.zonalWavenumbers).length)
    (hp : p < (fieldSet.getD idx default).data.length)
    (hlev : ((fieldSet.getD idx default).data.getD p []).length = 2)
    (hr : r < 2)
    (hident : ∀ n a b,
      B.spectralVerticalCorrelations (fieldSet.getD idx default).name n a b =
        if a = b then 1 else 0) :
    (((B.multiply fieldSet).getD idx default).data.getD p []).getD r 0 =
      ((fieldSet.getD idx default).data.getD p []).getD r 0 /
        (((2 * (spectralCoeffTotalWavenumbers B.truncation B.zonalWavenumbers).getD p 0 + 1) *
            B.vertCovShape0 (fieldSet.getD idx default).name : Nat) : ℚ) := by
  rw [multiply_entry_sum B fieldSet idx p r hidx hactive hlen hp
    (by rw [hlev]; exact hr)]
  congr 1
  rw [hlev]
  simp only [List.range_succ, List.range_zero, List.nil_append, List.map_append, List.map_cons,
    List.map_nil, List.sum_append, List.sum_cons, List.sum_nil, hident]
  interval_cases r
  · simp
  · simp

/-- Witness for the amended C4 at the first coefficient of the concrete
identity-correlation configuration. -/
theorem spectralCorrelation_identity_scales_witness :
    (0 < scIdentityFieldSet.length ∧
      (scIdentityFieldSet.getD 0 default).name ∈ scIdentityBlock.activeVars ∧
      (scIdentityFieldSet.getD 0 default).data.length =
        (spectralCoeffTotalWavenumbers scIdentityBlock.truncation
          scIdentityBlock.zonalWavenumbers).length ∧
      0 < (scIdentityFieldSet.getD 0 default).data.length ∧
      ((scIdentityFieldSet.getD 0 default).data.getD 0 []).length = 2 ∧ 0 < 2) ∧
    (((scIdentityBlock.multiply scIdentityFieldSet).getD 0 default).data.getD 0 []).getD 0 0 =
      ((scIdentityFieldSet.getD 0 default).data.getD 0 []).getD 0 0 /
        (((2 * (spectralCoeffTotalWavenumbers scIdentityBlock.truncation
              scIdentityBlock.zonalWavenumbers).getD 0 0 + 1) *
            scIdentityBlock.vertCovShape0 (scIdentityFieldSet.getD 0 default).name : Nat) : ℚ) :=
  ⟨⟨by decide, by decide, by decide, by decide, by decide, by decide⟩,
    spectralCorrelation_identity_scales scIdentityBlock scIdentityFieldSet 0 0 0
      (by decide) (by decide) (by decide) (by decide) (by decide) (by decide)
      (fun _ _ _ => rfl)⟩

/-- C7: SpectralCorrelation::randomize unconditionally throws the
FunctionalityNotSupported exception whose guidance directs the caller to the
ID central block with the square root of spectral correlation outer block, and
the field set buffer is left entirely unmodified. -/
theorem spectralCorrelation_randomize_not_supported (B : SpectralCorrelation)
    (fieldSet : List SCField) :
    (B.randomize fieldSet).1 = fieldSet ∧
    (B.randomize fieldSet).2 =
      some (EckitException.functionalityNotSupported
        "use ID and square root of spectral correlation instead.") :=
  ⟨rfl, rfl⟩

/-- C10: SpectralCorrelation::multiply preserves the number of fields, and
every field whose name is not among the active variables is left entirely
unchanged (same name, level count and values). -/
theorem spectralCorrelation_multiply_frame (B : SpectralCorrelation)
    (fieldSet : List SCField) (idx : Nat)
    (hidx : idx < fieldSet.length)
    (hinactive : (fieldSet.getD idx default).name ∉ B.activeVars) :
    (B.multiply fieldSet).length = fieldSet.length ∧
    (B.multiply fieldSet).getD idx default = fieldSet.getD idx default := by
  constructor
  · unfold SpectralCorrelation.multiply
    exact List.length_map _ _
  · unfold SpectralCorrelation.multiply
    rw [getD_map_lt _ _ idx default default hidx, if_neg hinactive]

/-- Field set for the C10 witness: one active and one inactive field. -/
def scFrameFieldSet : List SCField :=
  scWitnessFieldSet ++ [{ name := "qv", data := [[3, 4]] }]

/-- Witness for C10: the inactive field at index 1 is untouched. -/
theorem spectralCorrelation_multiply_frame_witness :
    (1 < scFrameFieldSet.length ∧
      (scFrameFieldSet.getD 1 default).name ∉ scWitnessBlock.activeVars) ∧
    ((scWitnessBlock.multiply scFrameFieldSet).length = scFrameFieldSet.length ∧
    (scWitnessBlock.multiply scFrameFieldSet).getD 1 default =
      scFrameFieldSet.getD 1 default) :=
  ⟨⟨by decide, by decide⟩,
    spectralCorrelation_multiply_frame scWitnessBlock scFrameFieldSet 1
      (by decide) (by decide)⟩

/-- SaberCentralBlockFactory registration (the constructor of the factory base
class): the registry getMakers() is an association list from block-type name
to maker.  A duplicate name throws eckit::Exception and leaves the registry
unchanged (the first registration stays in place); otherwise the maker is
inserted. -/
def registerMaker {M : Type} (makers : List (String × M)) (name : String) (maker : M) :
    List (String × M) × Option EckitException :=
  if (makers.lookup name).isSome then
    (makers,
     some (EckitException.exception
       "Element already registered in saber::SaberCentralBlockFactory."))
  else (makers ++ [(name, maker)], none)

/-- SaberCentralBlockFactory::create: look the requested block-type name up in
the registry; an absent name throws eckit::UserError before any maker is
invoked, otherwise the found maker constructs the block. -/
def factoryCreate {M B : Type} (makers : List (String × M)) (make : M → B)
    (saberBlockName : String) : Except EckitException B :=
  match makers.lookup saberBlockName with
  | some maker => Except.ok (make maker)
  | none =>
    Except.error (EckitException.userError
      "Element does not exist in saber::SaberCentralBlockFactory.")

/-- C8: registering an already-present block-type name throws the fatal
eckit::Exception and leaves the registry (hence the first registration)
unchanged, and create on a name absent from the registry throws the fatal
eckit::UserError without invoking any maker, at assembly time. -/
theorem saberCentralBlockFactory_error_policy {M B : Type} (makers : List (String × M))
    (make : M → B) (name : String) (maker : M) :
    ((makers.lookup name).isSome →
      registerMaker makers name maker =
        (makers,
         some (EckitException.exception
           "Element already registered in saber::SaberCentralBlockFactory."))) ∧
    (makers.lookup name = none →
      factoryCreate makers make name =
        Except.error (EckitException.userError
          "Element does not exist in saber::SaberCentralBlockFactory.")) := by
  constructor
  · intro h
    unfold registerMaker
    rw [if_pos h]
  · intro h
    unfold factoryCreate
    rw [h]

/-- Witness for C8: one concrete registry, a duplicate registration of the
name ID and a lookup of the absent name Hybrid. -/
theorem saberCentralBlockFactory_error_policy_witness :
    (registerMaker [("ID", 0)] "ID" 1 =
      ([("ID", 0)],
       some (EckitException.exception
         "Element already registered in saber::SaberCentralBlockFactory."))) ∧
    (factoryCreate [("ID", (0 : Nat))] (fun m => m) "Hybrid" =
      Except.error (EckitException.userError
        "Element does not exist in saber::SaberCentralBlockFactory.")) :=
  ⟨(saberCentralBlockFactory_error_policy [("ID", 0)] (fun m : Nat => m) "ID" 1).1 (by decide),
   (saberCentralBlockFactory_error_policy [("ID", (0 : Nat))] (fun m => m) "Hybrid" 1).2
     (by decide)⟩

/-- Per-variable fill status built by the conversion loop of
gsi_covariance_mod::multiply: each required GSI variable is initialised to
unfilled-name; a variable without a pointer in the GSI bundle keeps that
status (the loop cycles), one found in the incoming Atlas field sets becomes
filled-name, and one with a bundle pointer but missing from the field sets
keeps its bare name. -/
def fillStatuses (gvars bundleVars fieldVars : List String) : List String :=
  gvars.map (fun v =>
    if v ∈ bundleVars then
      (if v ∈ fieldVars then "filled-" ++ v else v)
    else "unfilled-" ++ v)

/-- The status rewriting of the cvfix_ helper: entries that read exactly tv
are marked filled (reconstructed from virtual temperature and humidity), and
entries that read exactly sst are marked filled when a ts entry is present. -/
def cvfixStatuses (need : List String) : List String :=
  let need1 :=
    if need.contains "tv" then need.map (fun s => if s == "tv" then "filled-" ++ s else s)
    else need
  if need1.contains "ts" then need1.map (fun s => if s == "sst" then "filled-" ++ s else s)
  else need1

/-- The aggregate check of gsi_covariance_mod::multiply: when any status does
not start with filled (Fortran needvrs(:)(1:6) compared with the literal), the
whole status list is printed, one line per entry, and a single abor1 fatal
error is raised; otherwise nothing is printed and no error is raised.  The
first component is the list of printed status lines. -/
def checkMissingFields (abortMsg : String) (needvrs : List String) :
    List String × Option String :=
  if needvrs.any (fun s => s.take 6 != "filled") then (needvrs, some abortMsg)
  else ([], none)

/-- The adjoint-side conversion and check of gsi_covariance_mod::multiply:
build the statuses, apply the cvfix_ rewriting, then run the aggregate
check. -/
def gsiMultiplyAdmCheck (gvars bundleVars fieldVars : List String) :
    List String × Option String :=
  checkMissingFields "gsi_covariance_mod*multiply: missing fields in cv(adm) "
    (cvfixStatuses (fillStatuses gvars bundleVars fieldVars))

lemma mem_map_of_fixpoint {v : String} {l : List String} (f : String → String)
    (hf : f v = v) (hv : v ∈ l) : v ∈ l.map f :=
  hf ▸ List.mem_map_of_mem f hv

lemma mem_fillStatuses {v : String} {gvars bundleVars fieldVars : List String}
    (hg : v ∈ gvars) (hb : v ∈ bundleVars) (hf : v ∉ fieldVars) :
    v ∈ fillStatuses gvars bundleVars fieldVars := by
  unfold fillStatuses
  have : (if v ∈ bundleVars then (if v ∈ fieldVars then "filled-" ++ v else v)
      else "unfilled-" ++ v) = v := by
    rw [if_pos hb, if_neg hf]
  exact this ▸ List.mem_map_of_mem _ hg

lemma mem_cvfixStatuses {v : String} {need : List String}
    (hv : v ∈ need) (htv : v ≠ "tv") (hsst : v ≠ "sst") : v ∈ cvfixStatuses need := by
  unfold cvfixStatuses
  have h1 : v ∈ (if need.contains "tv" then
      need.map (fun s => if s == "tv" then "filled-" ++ s else s) else need) := by
    by_cases hc : need.contains "tv"
    · rw [if_pos hc]
      exact mem_map_of_fixpoint _ (by simp [htv]) hv
    · rw [if_neg hc]
      exact hv
  by_cases hc2 : (if need.contains "tv" then
      need.map (fun s => if s == "tv" then "filled-" ++ s else s) else need).contains "ts"
  · rw [if_pos hc2]
    exact mem_map_of_fixpoint _ (by simp [hsst]) h1
  · rw [if_neg hc2]
    exact h1

/-- C9: when two distinct required GSI variables both remain unfilled after
the conversion of the Atlas field sets into the GSI bundle (present in the
bundle, absent from the incoming field sets, not among the names the fix step
can reconstruct), the aggregate check prints the entire collected status list
in one pass, so both unfilled variable names appear among the printed lines,
and exactly one fatal abort is raised, rather than aborting at the first
missing field. -/
theorem gsiMultiply_aggregate_missing_fields (gvars bundleVars fieldVars : List String)
    (v1 v2 : String)
    (h1 : v1 ∈ gvars) (h2 : v2 ∈ gvars) (_hne : v1 ≠ v2)
    (hb1 : v1 ∈ bundleVars) (hb2 : v2 ∈ bundleVars)
    (hf1 : v1 ∉ fieldVars) (hf2 : v2 ∉ fieldVars)
    (hx1 : v1 ≠ "tv" ∧ v1 ≠ "sst" ∧ v1.take 6 ≠ "filled")
    (hx2 : v2 ≠ "tv" ∧ v2 ≠ "sst" ∧ v2.take 6 ≠ "filled") :
    (gsiMultiplyAdmCheck gvars bundleVars fieldVars).1 =
      cvfixStatuses (fillStatuses gvars bundleVars fieldVars) ∧
    v1 ∈ (gsiMultiplyAdmCheck gvars bundleVars fieldVars).1 ∧
    v2 ∈ (gsiMultiplyAdmCheck gvars bundleVars fieldVars).1 ∧
    (gsiMultiplyAdmCheck gvars bundleVars fieldVars).2 =
      some "gsi_covariance_mod*multiply: missing fields in cv(adm) " := by
  have hmem1 : v1 ∈ cvfixStatuses (fillStatuses gvars bundleVars fieldVars) :=
    mem_cvfixStatuses (mem_fillStatuses h1 hb1 hf1) hx1.1 hx1.2.1
  have hmem2 : v2 ∈ cvfixStatuses (fillStatuses gvars bundleVars fieldVars) :=
    mem_cvfixStatuses (mem_fillStatuses h2 hb2 hf2) hx2.1 hx2.2.1
  have hany : (cvfixStatuses (fillStatuses gvars bundleVars fieldVars)).any
      (fun s => s.take 6 != "filled") = true := by
    rw [List.any_eq_true]
    exact ⟨v1, hmem1, by simpa using hx1.2.2⟩
  unfold gsiMultiplyAdmCheck checkMissingFields
  rw [if_pos hany]
  exact ⟨rfl, hmem1, hmem2, rfl⟩

/-- Witness for C9: stream function and velocity potential both required and
in the GSI bundle but absent from the incoming field sets. -/
theorem gsiMultiply_aggregate_missing_fields_witness :
    (("sf" : String) ∈ ["sf", "vp"] ∧ ("vp" : String) ∈ ["sf", "vp"] ∧
      ("sf" : String) ≠ "vp") ∧
    ((gsiMultiplyAdmCheck ["sf", "vp"] ["sf", "vp"] []).1 =
      cvfixStatuses (fillStatuses ["sf", "vp"] ["sf", "vp"] []) ∧
    ("sf" : String) ∈ (gsiMultiplyAdmCheck ["sf", "vp"] ["sf", "vp"] []).1 ∧
    ("vp" : String) ∈ (gsiMultiplyAdmCheck ["sf", "vp"] ["sf", "vp"] []).1 ∧
    (gsiMultiplyAdmCheck ["sf", "vp"] ["sf", "vp"] []).2 =
      some "gsi_covariance_mod*multiply: missing fields in cv(adm) ") :=
  ⟨⟨by decide, by decide, by decide⟩,
    gsiMultiply_aggregate_missing_fields ["sf", "vp"] ["sf", "vp"] [] "sf" "vp"
      (by decide) (by decide) (by decide) (by decide) (by decide) (by decide) (by decide)
      ⟨by decide, by decide, by decide⟩ ⟨by decide, by decide, by decide⟩⟩

end Saber
